import Mathlib

/-!
Verification of the Session Logging & Analytics Engine of the IronPulse
workout tracker.

The development shallowly embeds the engine's data model and operations:

* `src/types.ts` — the data model (`SetLog`, `Exercise`, `WorkoutDay`,
  `ActiveSession`, `WorkoutLogDetail`, `WorkoutHistory`).
* `src/components/ActiveWorkout.tsx` — `findLastWeightForExercise`, the
  session initialization effect, and the mutators `updateSet`,
  `toggleComplete`, `addSet`, `removeSet`.
* `src/App.tsx` — `handleFinishWorkout`, the session finalizer.
* `src/components/Stats.tsx` — `exerciseStats` and `weeklyActivity`.

Modelling conventions: JavaScript numbers are embedded as `Rat` (weights,
reps, volumes) and `Int` (epoch-millisecond timestamps); a JavaScript
object used as a string-keyed map is an association list
`List (String × α)` in insertion order, with `setEntry` modelling
`{...obj, [k]: v}` (replace in place, else append) and `lookupVal`
modelling `obj[k]` (`none` for a missing key, i.e. `undefined`);
`crypto.randomUUID()` is an externally supplied identifier source passed
as a function argument.  The optional `exercises?` field of a
`WorkoutHistory` is embedded as a plain list: the code guards every
access with a truthiness test under which `undefined` and `[]` behave
identically (both yield no matching entry).  Code paths that throw a
`TypeError` at runtime are embedded as `Option`-returning functions that
yield `none` there.
-/


/-! ## Data model (src/types.ts) -/
/-- One logged set of a live session (src/types.ts `SetLog`). -/
structure SetLog where
  id : String
  reps : Rat
  weight : Rat
  completed : Bool
deriving DecidableEq

/-- A planned exercise (src/types.ts `Exercise`; the optional `notes`
field is never read by the engine and is omitted). -/
structure Exercise where
  id : String
  name : String
  targetSets : Nat
  targetReps : String
deriving DecidableEq

/-- A day of a training plan (src/types.ts `WorkoutDay`). -/
structure WorkoutDay where
  id : String
  name : String
  exercises : List Exercise
deriving DecidableEq

/-- A live workout session (src/types.ts `ActiveSession`).  The
JavaScript object `exercises` is embedded as an association list in key
insertion order. -/
structure ActiveSession where
  id : String
  planId : String
  dayId : String
  startTime : Int
  exercises : List (String × List SetLog)
deriving DecidableEq

/-- One set of a persisted per-exercise log entry (the anonymous
`{ weight; reps; completed }` element type of src/types.ts
`WorkoutLogDetail.sets`). -/
structure LogSet where
  weight : Rat
  reps : Rat
  completed : Bool
deriving DecidableEq

/-- A persisted per-exercise log entry (src/types.ts `WorkoutLogDetail`). -/
structure WorkoutLogDetail where
  name : String
  sets : List LogSet
deriving DecidableEq

/-- A finalized workout record (src/types.ts `WorkoutHistory`). -/
structure WorkoutHistory where
  id : String
  date : Int
  planName : String
  dayName : String
  durationSeconds : Int
  totalVolume : Rat
  exercisesCompleted : Nat
  exercises : List WorkoutLogDetail
deriving DecidableEq

/-! ## JavaScript object-as-map primitives -/
/-- Reading `m[k]` on a JavaScript object embedded as an association
list: the value at the first occurrence of the key, `none` when absent. -/
def lookupVal {α : Type} (m : List (String × α)) (k : String) : Option α :=
  (m.find? (fun p => p.1 == k)).map (fun p => p.2)

/-- The spread-update `{...m, [k]: v}` on a JavaScript object embedded
as an association list: replace the value in place when the key exists
(keeping its insertion position), otherwise append the new key. -/
def setEntry {α : Type} (m : List (String × α)) (k : String) (v : α) : List (String × α) :=
  if m.any (fun p => p.1 == k) then m.map (fun p => if p.1 == k then (k, v) else p)
  else m ++ [(k, v)]

/-! ## Session mutators (src/components/ActiveWorkout.tsx) -/
/-- The three writable `SetLog` fields together with the value written,
modelling the `(field, value)` argument pair of `updateSet`. -/
inductive SetFieldUpdate
  | reps (v : Rat)
  | weight (v : Rat)
  | completed (v : Bool)
deriving DecidableEq

/-- `{ ...s, [field]: value }` for a fully populated set entry. -/
def applyFieldUpdate (u : SetFieldUpdate) (s : SetLog) : SetLog :=
  match u with
  | .reps v => { s with reps := v }
  | .weight v => { s with weight := v }
  | .completed v => { s with completed := v }

/-- `updateSet` (src/components/ActiveWorkout.tsx lines 138-148) on the
typed session model, defined on indices addressing an existing set.  For
an index with no existing set the JavaScript source writes a sparse
array slot holding a partial object; that path leaves the typed model
and is embedded faithfully by `updateSetRaw` below, so here it is
signalled as `none`. -/
def updateSet (prev : ActiveSession) (exerciseId : String) (setIndex : Nat)
    (u : SetFieldUpdate) : Option ActiveSession :=
  let sets := (lookupVal prev.exercises exerciseId).getD []
  match sets[setIndex]? with
  | some old =>
      let written := sets.set setIndex (applyFieldUpdate u old)
      some { prev with exercises := setEntry prev.exercises exerciseId written }
  | none => none

/-- `toggleComplete` (src/components/ActiveWorkout.tsx lines 150-159).
When the addressed set does not exist the source dereferences
`undefined` (`!sets[setIndex].completed` throws a `TypeError`), embedded
as `none`. -/
def toggleComplete (prev : ActiveSession) (exerciseId : String) (setIndex : Nat) :
    Option ActiveSession :=
  let sets := (lookupVal prev.exercises exerciseId).getD []
  match sets[setIndex]? with
  | some old =>
      let written := sets.set setIndex { old with completed := !old.completed }
      some { prev with exercises := setEntry prev.exercises exerciseId written }
  | none => none

/-- `addSet` (src/components/ActiveWorkout.tsx lines 161-176); the fresh
`crypto.randomUUID()` is passed in as `freshId`. -/
def addSet (prev : ActiveSession) (exerciseId : String) (freshId : String) : ActiveSession :=
  let currentSets := (lookupVal prev.exercises exerciseId).getD []
  let lastWeight := ((currentSets.getLast?).map (fun s => s.weight)).getD 0
  let lastReps := ((currentSets.getLast?).map (fun s => s.reps)).getD 0
  let written := currentSets ++
    [{ id := freshId, reps := lastReps, weight := lastWeight, completed := false }]
  { prev with exercises := setEntry prev.exercises exerciseId written }

/-- `removeSet` (src/components/ActiveWorkout.tsx lines 178-190):
`currentSets.slice(0, -1)` is `dropLast`, guarded by
`currentSets.length <= 1`. -/
def removeSet (prev : ActiveSession) (exerciseId : String) : ActiveSession :=
  let currentSets := (lookupVal prev.exercises exerciseId).getD []
  if currentSets.length ≤ 1 then prev
  else { prev with exercises := setEntry prev.exercises exerciseId currentSets.dropLast }

/-! ## Raw (untyped) model of `updateSet`

The JavaScript `updateSet` is total: addressed with a nonexistent
exercise id or an out-of-range index it still writes, producing a sparse
array whose written slot holds a partial object `{ [field]: value }`.
The raw model represents a possibly partial set object (`RawSet`, every
field optional) and a possibly sparse array (`List (Option RawSet)`,
`none` standing for a hole / `undefined` slot). -/
/-- A possibly partial set object: each field is present (`some`) or
`undefined` (`none`). -/
structure RawSet where
  id : Option String
  reps : Option Rat
  weight : Option Rat
  completed : Option Bool
deriving DecidableEq

/-- A live session whose per-exercise arrays may be sparse and whose set
objects may be partial. -/
structure RawSession where
  id : String
  planId : String
  dayId : String
  startTime : Int
  exercises : List (String × List (Option RawSet))
deriving DecidableEq

/-- `{ ...base, [field]: value }` where `base` may be `undefined`
(spreading `undefined` yields the empty object). -/
def spreadUpdate (base : Option RawSet) (u : SetFieldUpdate) : RawSet :=
  let b := base.getD { id := none, reps := none, weight := none, completed := none }
  match u with
  | .reps v => { b with reps := some v }
  | .weight v => { b with weight := some v }
  | .completed v => { b with completed := some v }

/-- The JavaScript array element assignment `l[i] = v`: in range it
replaces the slot, beyond the end it extends the array with holes. -/
def jsWrite (l : List (Option RawSet)) (i : Nat) (v : RawSet) : List (Option RawSet) :=
  if i < l.length then l.set i (some v)
  else l ++ List.replicate (i - l.length) none ++ [some v]

/-- `updateSet` (src/components/ActiveWorkout.tsx lines 138-148) on the
raw model, faithful on every input: read `prev.exercises[exerciseId] || []`,
copy it, assign index `setIndex` the spread-updated element, and rebind
the key (creating it when absent). -/
def updateSetRaw (prev : RawSession) (exerciseId : String) (setIndex : Nat)
    (u : SetFieldUpdate) : RawSession :=
  let sets := (lookupVal prev.exercises exerciseId).getD []
  let written := jsWrite sets setIndex (spreadUpdate (sets.getD setIndex none) u)
  { prev with exercises := setEntry prev.exercises exerciseId written }

/-- A concrete live session (raw model) with the single exercise key
"ex-1" holding one fully populated, uncompleted set. -/
def rawDemoSession : RawSession :=
  { id := ("session-1"), planId := ("plan-1"), dayId := ("day-1"), startTime := 0,
    exercises := [(("ex-1"),
      [some { id := some ("set-1"), reps := some 0, weight := some 0,
              completed := some false }])] }

/-- A concrete live session with a single one-set exercise, used by
closed witnesses. -/
def demoSession : ActiveSession :=
  { id := ("session-2"), planId := ("plan-1"), dayId := ("day-1"), startTime := 0,
    exercises := [(("ex-1"),
      [{ id := ("set-a"), reps := 5, weight := 100, completed := true }])] }

/-! ## Session finalizer (src/App.tsx `handleFinishWorkout`, lines 106-155) -/
/-- Resolution of an exercise id to its display name against the day
definition (src/App.tsx lines 118-119). -/
def resolveExerciseName (day : WorkoutDay) (exId : String) : String :=
  match day.exercises.find? (fun e => e.id == exId) with
  | some ex => ex.name
  | none => "Unknown Exercise"

/-- Projection of a live `SetLog` to the persisted triple
(src/App.tsx lines 131-135). -/
def toLogSet (s : SetLog) : LogSet :=
  { weight := s.weight, reps := s.reps, completed := s.completed }

/-- The body of the `Object.entries(session.exercises).forEach` loop of
`handleFinishWorkout` (src/App.tsx lines 117-138), acting on the
accumulator `(volume, exercisesDone, detailedExercises)`. -/
def finishStep (day : WorkoutDay) (acc : Rat × Nat × List WorkoutLogDetail)
    (p : String × List SetLog) : Rat × Nat × List WorkoutLogDetail :=
  let exerciseName := resolveExerciseName day p.1
  let completedSets := p.2.filter (fun s => s.completed)
  if 0 < completedSets.length then
    (completedSets.foldl (fun v s => v + s.weight * s.reps) acc.1,
     acc.2.1 + 1,
     acc.2.2 ++ [{ name := exerciseName, sets := completedSets.map toLogSet }])
  else acc

/-- `handleFinishWorkout` (src/App.tsx lines 106-155) as a pure
finalizer: the fresh `crypto.randomUUID()` and the `Date.now()` reading
are passed in as `recordId` and `now`. -/
def finish (session : ActiveSession) (day : WorkoutDay) (planName : String)
    (now : Int) (recordId : String) : WorkoutHistory :=
  let acc := session.exercises.foldl (finishStep day) (0, 0, [])
  { id := recordId, date := now, planName := planName, dayName := day.name,
    durationSeconds := (now - session.startTime).fdiv 1000,
    totalVolume := acc.1, exercisesCompleted := acc.2.1, exercises := acc.2.2 }

/-- Specification-side volume of a set list: the sum of weight times
reps over exactly the sets marked completed. -/
def completedVolume (sets : List SetLog) : Rat :=
  ((sets.filter (fun s => s.completed)).map (fun s => s.weight * s.reps)).sum

/-- Specification-side volume of a whole session. -/
def sessionCompletedVolume (session : ActiveSession) : Rat :=
  (session.exercises.map (fun p => completedVolume p.2)).sum

/-- Whether an exercise slot of the session mapping has at least one
completed set. -/
def hasCompletedSet (p : String × List SetLog) : Bool :=
  p.2.any (fun s => s.completed)

/-- Specification-side detailed log: one entry per exercise slot with at
least one completed set, holding exactly the completed sets. -/
def specDetails (day : WorkoutDay) (entries : List (String × List SetLog)) :
    List WorkoutLogDetail :=
  entries.filterMap (fun p =>
    let cs := p.2.filter (fun s => s.completed)
    if 0 < cs.length then
      some { name := resolveExerciseName day p.1, sets := cs.map toLogSet }
    else none)

/-- A one-exercise day matching `demoSession`, used by closed witnesses. -/
def demoDay : WorkoutDay :=
  { id := ("day-1"), name := ("Push"),
    exercises := [{ id := ("ex-1"), name := ("Bench Press"), targetSets := 3,
                    targetReps := ("8-10") }] }

/-! ## Session initializer (src/components/ActiveWorkout.tsx) -/
/-- The weight of the literal last set of a persisted set list.  The
source (src/components/ActiveWorkout.tsx line 26) indexes
`sets[sets.length - 1]` under a nonemptiness guard, so the 0 of the
empty case is unreachable where this is used. -/
def lastSetWeight (sets : List LogSet) : Rat :=
  match sets.getLast? with
  | some s => s.weight
  | none => 0

/-- `findLastWeightForExercise` (src/components/ActiveWorkout.tsx lines
15-31): scan the newest-first history for the first record whose detail
log has an entry named `exerciseName` with a non-empty set list; within
it prefer the last completed set's weight (`[...sets].reverse().find`),
falling back to the literal last set's weight; 0 when the scan finds
nothing. -/
def findLastWeightForExercise (exerciseName : String)
    (history : List WorkoutHistory) : Rat :=
  match history with
  | [] => 0
  | record :: rest =>
    match record.exercises.find? (fun e => e.name == exerciseName) with
    | some exerciseLog =>
      if 0 < exerciseLog.sets.length then
        match exerciseLog.sets.reverse.find? (fun s => s.completed) with
        | some lastCompletedSet => lastCompletedSet.weight
        | none => lastSetWeight exerciseLog.sets
      else findLastWeightForExercise exerciseName rest
    | none => findLastWeightForExercise exerciseName rest

/-- The session-initialization effect (src/components/ActiveWorkout.tsx
lines 107-130): for each exercise of the day, in order, bind its id (a
JavaScript object assignment, hence `setEntry`) to `targetSets` fresh
sets with reps 0, the carried-forward weight, and completed `false`.
The per-set `crypto.randomUUID()` values are supplied by `ids`, indexed
by exercise id and set position. -/
def initSession (day : WorkoutDay) (history : List WorkoutHistory)
    (ids : String → Nat → String) : List (String × List SetLog) :=
  day.exercises.foldl
    (fun acc ex =>
      let lastWeight := findLastWeightForExercise ex.name history
      setEntry acc ex.id ((List.range ex.targetSets).map (fun i =>
        { id := ids ex.id i, reps := 0, weight := lastWeight, completed := false })))
    []

/-- The carry-forward weight exactly as the claim words it: the first
(newest) record containing a detail entry with the exercise's name
determines the weight — last completed set, else the literal last set —
and the weight is 0 when no record contains a matching entry.  For a
matching entry with an empty set list the claim fixes no value, so the
result is `none` there. -/
def specCarryWeight (exerciseName : String) (history : List WorkoutHistory) :
    Option Rat :=
  match history.find? (fun r => (r.exercises.find? (fun e => e.name == exerciseName)).isSome) with
  | none => some 0
  | some r =>
    match r.exercises.find? (fun e => e.name == exerciseName) with
    | some entry =>
      match entry.sets.reverse.find? (fun s => s.completed) with
      | some s => some s.weight
      | none => (entry.sets.getLast?).map (fun s => s.weight)
    | none => none

/-- An identifier source for closed witnesses. -/
def demoIds : String → Nat → String := fun s n => s ++ toString n

/-- The detail entry of the specification's carry-forward example. -/
def demoLogEntry : WorkoutLogDetail :=
  { name := ("Bench Press"),
    sets := [{ weight := 100, reps := 8, completed := true },
             { weight := 105, reps := 6, completed := true },
             { weight := 90, reps := 10, completed := false }] }

/-- A one-record history whose Bench Press entry carries the sets of the
specification's carry-forward example. -/
def demoHistory : List WorkoutHistory :=
  [{ id := ("h-1"), date := 1000, planName := ("PPL"), dayName := ("Push"),
     durationSeconds := 100, totalVolume := 1430, exercisesCompleted := 1,
     exercises := [demoLogEntry] }]


/-! ## Analytics engine (src/components/Stats.tsx) -/
/-- One point of the per-exercise progression series
(src/components/Stats.tsx line 34). -/
structure StatPoint where
  date : Int
  maxWeight : Rat
  volume : Rat
  estOneRepMax : Rat
deriving DecidableEq

/-- The Epley one-rep-max estimate `weight * (1 + reps / 30)`
(src/components/Stats.tsx line 50). -/
def estOneRepMax (weight reps : Rat) : Rat := weight * (1 + reps / 30)

/-- Body of the `exData.sets.forEach` loop of `exerciseStats`
(src/components/Stats.tsx lines 44-53) on the accumulator
`(maxWeight, volume, max1RM)`. -/
def statStep (acc : Rat × Rat × Rat) (s : LogSet) : Rat × Rat × Rat :=
  if s.completed then
    (if acc.1 < s.weight then s.weight else acc.1,
     acc.2.1 + s.weight * s.reps,
     if acc.2.2 < estOneRepMax s.weight s.reps then estOneRepMax s.weight s.reps else acc.2.2)
  else acc

/-- The per-record point of `exerciseStats` (src/components/Stats.tsx
lines 36-64): `none` when the record has no entry matching the selected
exercise or when the computed volume is not positive. -/
def recordStat (selectedExercise : String) (h : WorkoutHistory) : Option StatPoint :=
  match h.exercises.find? (fun e => e.name == selectedExercise) with
  | none => none
  | some exData =>
    let r := exData.sets.foldl statStep (0, 0, 0)
    if 0 < r.2.1 then
      some { date := h.date, maxWeight := r.1, volume := r.2.1, estOneRepMax := r.2.2 }
    else none

/-- `exerciseStats` (src/components/Stats.tsx lines 31-67): collect the
per-record points in store order, then sort ascending by date (the
comparator `(a, b) => a.date - b.date`); the empty selection
short-circuits to the empty series. -/
def exerciseStats (history : List WorkoutHistory) (selectedExercise : String) :
    List StatPoint :=
  if selectedExercise == "" then []
  else (history.filterMap (recordStat selectedExercise)).mergeSort
    (fun a b => decide (a.date ≤ b.date))

/-- Specification-side volume a record contributes to a given exercise:
the completed-set volume of its matching entry, 0 without one. -/
def recordVolume (name : String) (h : WorkoutHistory) : Rat :=
  match h.exercises.find? (fun e => e.name == name) with
  | none => 0
  | some e => ((e.sets.filter (fun s => s.completed)).map (fun s => s.weight * s.reps)).sum

/-! ## Weekly activity rollup (src/components/Stats.tsx lines 70-89) -/
/-- One weekly bucket (src/components/Stats.tsx lines 73-77). -/
structure WeekBucket where
  label : String
  workouts : Nat
  volume : Rat
deriving DecidableEq

/-- Milliseconds per day (src/components/Stats.tsx line 80:
`1000 * 60 * 60 * 24`). -/
def msPerDay : Int := 1000 * 60 * 60 * 24

/-- The bucket index of a record: `Math.floor(daysAgo / 7)` of
`daysAgo = Math.floor((now - h.date) / msPerDay)`
(src/components/Stats.tsx lines 80-81), with floor division `fdiv`. -/
def weekIndexOf (now : Int) (h : WorkoutHistory) : Int :=
  ((now - h.date).fdiv msPerDay).fdiv 7

/-- Bucket label (src/components/Stats.tsx line 74). -/
def weekLabel (i : Nat) : String :=
  if i = 0 then ("This Week") else toString i ++ ("w ago")

/-- Body of the `history.forEach` loop of `weeklyActivity`
(src/components/Stats.tsx lines 79-86).  A negative bucket index (a
record dated in the future) makes the source dereference
`data[weekIndex]`, which is `undefined`, and throw; that path is
embedded as `none`. -/
def bucketStep (now : Int) (data : List WeekBucket) (h : WorkoutHistory) :
    Option (List WeekBucket) :=
  let weekIndex := weekIndexOf now h
  if weekIndex < 4 then
    if 0 ≤ weekIndex then
      match data[weekIndex.toNat]? with
      | some b =>
          some (data.set weekIndex.toNat
            { b with workouts := b.workouts + 1, volume := b.volume + h.totalVolume })
      | none => none
    else none
  else some data

/-- `weeklyActivity` (src/components/Stats.tsx lines 70-89) with
`weeks = 4`: four zeroed labelled buckets, one pass over the history,
then `reverse` to oldest-first. -/
def weeklyActivity (history : List WorkoutHistory) (now : Int) :
    Option (List WeekBucket) :=
  let data := (List.range 4).map
    (fun i => { label := weekLabel i, workouts := 0, volume := 0 : WeekBucket })
  (history.foldlM (bucketStep now) data).map List.reverse

/-- Specification-side buckets: bucket `i` counts the records whose
bucket index is `i` and sums their `totalVolume`; presented
oldest-first. -/
def specWeekBuckets (history : List WorkoutHistory) (now : Int) : List WeekBucket :=
  ((List.range 4).map (fun i =>
    { label := weekLabel i,
      workouts := history.countP (fun h => weekIndexOf now h == (i : Int)),
      volume := ((history.filter (fun h => weekIndexOf now h == (i : Int))).map
        (fun h => h.totalVolume)).sum : WeekBucket })).reverse

/-- The detail entry the finalizer produces for `demoSession` and
`demoDay`, used by closed witnesses. -/
def demoDetail : WorkoutLogDetail :=
  { name := ("Bench Press"), sets := [{ weight := 100, reps := 5, completed := true }] }

/-- A record dated exactly seven days before the witness query time
100000, used by the C6 witness. -/
def demoBoundaryRecord : WorkoutHistory :=
  { id := ("h-2"), date := 100000 - 7 * msPerDay, planName := ("PPL"),
    dayName := ("Push"), durationSeconds := 0, totalVolume := 0,
    exercisesCompleted := 0, exercises := [] }

/-- The progression point `exerciseStats` computes for `demoHistory` and
Bench Press, used by the C7 witness. -/
def demoPoint : StatPoint :=
  { date := 1000, maxWeight := 105, volume := 1430, estOneRepMax := 380 / 3 }

/-! ## Theorems -/

/-! ## Helper lemmas about the map primitives -/
theorem find?_map_replace {α : Type} (m : List (String × α)) (k : String) (v : α)
    (h : m.any (fun p => p.1 == k) = true) :
    (m.map (fun p => if p.1 == k then (k, v) else p)).find? (fun p => p.1 == k)
      = some (k, v) := by
  induction m with
  | nil => simp at h
  | cons p rest ih =>
    rw [List.map_cons]
    by_cases hp : p.1 == k
    · rw [if_pos hp]
      exact List.find?_cons_of_pos _ (by simp)
    · rw [if_neg hp]
      exact (List.find?_cons_of_neg (p := fun q : String × α => q.1 == k) _ hp).trans
        (ih (by simpa [List.any_cons, hp] using h))

theorem find?_append_fresh {α : Type} (m : List (String × α)) (k : String) (v : α)
    (h : m.any (fun p => p.1 == k) = false) :
    (m ++ [(k, v)]).find? (fun p => p.1 == k) = some (k, v) := by
  rw [List.find?_append]
  have hnone : m.find? (fun p => p.1 == k) = none := by
    rw [List.find?_eq_none]
    intro x hx
    have := (List.any_eq_false).mp h x hx
    simpa using this
  simp [hnone]

theorem lookupVal_setEntry_self {α : Type} (m : List (String × α)) (k : String) (v : α) :
    lookupVal (setEntry m k v) k = some v := by
  unfold setEntry lookupVal
  by_cases ha : m.any (fun p => p.1 == k)
  · rw [if_pos ha, find?_map_replace m k v ha]
    rfl
  · rw [if_neg ha, find?_append_fresh m k v (Bool.eq_false_iff.mpr ha)]
    rfl

theorem mem_setEntry {α : Type} {m : List (String × α)} {k : String} {v : α}
    {p : String × α} (h : p ∈ setEntry m k v) : p = (k, v) ∨ p ∈ m := by
  unfold setEntry at h
  by_cases ha : m.any (fun q => q.1 == k)
  · rw [if_pos ha] at h
    rcases List.mem_map.mp h with ⟨q, hq, hqe⟩
    by_cases hk : q.1 == k
    · left
      rw [← hqe]
      simp [hk]
    · right
      rw [← hqe]
      simp only [if_neg hk]
      exact hq
  · rw [if_neg ha] at h
    rcases List.mem_append.mp h with h1 | h1
    · right
      exact h1
    · left
      simpa using h1

/-! ## Claims about the session mutators -/
theorem removeSet_keeps_nonempty (s : ActiveSession) (e : String)
    (h : ∀ p ∈ s.exercises, p.2 ≠ []) :
    ∀ p ∈ (removeSet s e).exercises, p.2 ≠ [] := by
  intro p hp
  unfold removeSet at hp
  by_cases hl : ((lookupVal s.exercises e).getD []).length ≤ 1
  · rw [if_pos hl] at hp
    exact h p hp
  · rw [if_neg hl] at hp
    simp only at hp
    rcases mem_setEntry hp with heq | hmem
    · subst heq
      intro hne
      apply hl
      have := congrArg List.length hne
      simp only [List.length_dropLast, List.length_nil] at this
      omega
    · exact h p hmem

/-- Claim C4: `removeSet` removes the last set of the addressed exercise
unless its list has at most one set, in which case it is a no-op; hence
starting from a session in which every exercise has at least one set,
any sequence of `removeSet` calls leaves every exercise with at least
one set. -/
theorem removeSet_floor :
    (∀ (s : ActiveSession) (exId : String) (sets : List SetLog),
        lookupVal s.exercises exId = some sets →
          (sets.length ≤ 1 → removeSet s exId = s) ∧
          (2 ≤ sets.length →
            lookupVal (removeSet s exId).exercises exId = some sets.dropLast)) ∧
    (∀ (s : ActiveSession) (calls : List String),
        (∀ p ∈ s.exercises, p.2 ≠ []) →
        ∀ p ∈ (calls.foldl removeSet s).exercises, p.2 ≠ []) := by
  constructor
  · intro s exId sets hs
    constructor
    · intro hlen
      unfold removeSet
      rw [hs]
      simp [hlen]
    · intro hlen
      unfold removeSet
      rw [hs]
      have : ¬ (sets.length ≤ 1) := by omega
      simp only [Option.getD_some, if_neg this]
      exact lookupVal_setEntry_self _ _ _
  · intro s calls
    induction calls generalizing s with
    | nil => intro h; exact h
    | cons c rest ih =>
      intro h
      exact ih (removeSet s c) (removeSet_keeps_nonempty s c h)

/-- Closed witness for C4 at a concrete session: after removing twice
from a one-set exercise, its set list is still non-empty. -/
theorem removeSet_floor_witness :
    ([({ id := ("set-a"), reps := 5, weight := 100, completed := true } : SetLog)]
      : List SetLog) ≠ [] :=
  removeSet_floor.2 demoSession [("ex-1"), ("ex-1")] (by decide)
    (("ex-1"), [{ id := ("set-a"), reps := 5, weight := 100, completed := true }])
    (by decide)

/-- Claim C8: toggling a set's completion is the same session transition
as `updateSet` writing the negation of that set's current `completed`
value. -/
theorem toggleComplete_eq_updateSet (s : ActiveSession) (exId : String) (i : Nat)
    (old : SetLog) (h : ((lookupVal s.exercises exId).getD [])[i]? = some old) :
    toggleComplete s exId i = updateSet s exId i (SetFieldUpdate.completed (!old.completed)) := by
  unfold toggleComplete updateSet
  simp only [h]
  rfl

theorem toggleComplete_eq_updateSet_witness :
    toggleComplete demoSession ("ex-1") 0
      = updateSet demoSession ("ex-1") 0 (SetFieldUpdate.completed false) :=
  toggleComplete_eq_updateSet demoSession ("ex-1") 0
    { id := ("set-a"), reps := 5, weight := 100, completed := true } (by decide)

/-- Counterexample to claim C3 as stated: `updateSet` addressed with the
nonexistent exercise id "ex-2" does not leave the session unchanged —
it creates the exercise key. -/
theorem updateSet_not_rejected_counterexample :
    updateSetRaw rawDemoSession ("ex-2") 0 (SetFieldUpdate.completed true)
      ≠ rawDemoSession := by
  decide

/-- Claim C3 as amended: a mutation addressed with a nonexistent
exercise id is not rejected; `updateSet` creates the exercise key, bound
to a sparse list of `setIndex` holes followed by a partial set object
holding only the written field, so the session changes. -/
theorem updateSet_out_of_range_writes (prev : RawSession) (exId : String) (i : Nat)
    (u : SetFieldUpdate) (h : lookupVal prev.exercises exId = none) :
    lookupVal (updateSetRaw prev exId i u).exercises exId
      = some (List.replicate i none ++ [some (spreadUpdate none u)]) ∧
    updateSetRaw prev exId i u ≠ prev := by
  have key : lookupVal (updateSetRaw prev exId i u).exercises exId
      = some (List.replicate i none ++ [some (spreadUpdate none u)]) := by
    have hwr : jsWrite [] i (spreadUpdate (([] : List (Option RawSet)).getD i none) u)
        = List.replicate i none ++ [some (spreadUpdate none u)] := by
      unfold jsWrite
      simp [List.getD]
    simp only [updateSetRaw, h, Option.getD_none, hwr]
    exact lookupVal_setEntry_self _ _ _
  refine ⟨key, ?_⟩
  intro heq
  rw [heq] at key
  rw [h] at key
  exact Option.noConfusion key

theorem updateSet_out_of_range_writes_witness :
    lookupVal ((updateSetRaw rawDemoSession ("ex-2") 0
        (SetFieldUpdate.completed true)).exercises) ("ex-2")
      = some [some (spreadUpdate none (SetFieldUpdate.completed true))] ∧
    updateSetRaw rawDemoSession ("ex-2") 0 (SetFieldUpdate.completed true)
      ≠ rawDemoSession := by
  have := updateSet_out_of_range_writes rawDemoSession ("ex-2") 0
    (SetFieldUpdate.completed true) (by decide)
  simpa using this

theorem hasCompletedSet_iff (p : String × List SetLog) :
    hasCompletedSet p = true ↔ 0 < (p.2.filter (fun s => s.completed)).length := by
  unfold hasCompletedSet
  rw [List.any_eq_true, ← List.countP_eq_length_filter, List.countP_pos_iff]

theorem foldl_add_volume (l : List SetLog) (a : Rat) :
    l.foldl (fun v s => v + s.weight * s.reps) a
      = a + (l.map (fun s => s.weight * s.reps)).sum := by
  induction l generalizing a with
  | nil => simp
  | cons s rest ih => simp [ih, add_assoc]

theorem specDetails_cons_pos (day : WorkoutDay) (p : String × List SetLog)
    (rest : List (String × List SetLog))
    (hc : 0 < (p.2.filter (fun s => s.completed)).length) :
    specDetails day (p :: rest)
      = { name := resolveExerciseName day p.1,
          sets := (p.2.filter (fun s => s.completed)).map toLogSet } :: specDetails day rest := by
  unfold specDetails
  rw [List.filterMap_cons]
  simp [hc]

theorem specDetails_cons_neg (day : WorkoutDay) (p : String × List SetLog)
    (rest : List (String × List SetLog))
    (hc : ¬ 0 < (p.2.filter (fun s => s.completed)).length) :
    specDetails day (p :: rest) = specDetails day rest := by
  unfold specDetails
  rw [List.filterMap_cons]
  simp [hc]

theorem finish_foldl_eq (day : WorkoutDay) (entries : List (String × List SetLog))
    (a : Rat) (n : Nat) (d : List WorkoutLogDetail) :
    entries.foldl (finishStep day) (a, n, d)
      = (a + (entries.map (fun p => completedVolume p.2)).sum,
         n + entries.countP hasCompletedSet,
         d ++ specDetails day entries) := by
  induction entries generalizing a n d with
  | nil => simp [specDetails]
  | cons p rest ih =>
    rw [List.foldl_cons]
    by_cases hc : 0 < (p.2.filter (fun s => s.completed)).length
    · have hA : hasCompletedSet p = true := (hasCompletedSet_iff p).mpr hc
      have hstep : finishStep day (a, n, d) p
          = (a + completedVolume p.2, n + 1,
             d ++ [{ name := resolveExerciseName day p.1,
                     sets := (p.2.filter (fun s => s.completed)).map toLogSet }]) := by
        unfold finishStep completedVolume
        rw [if_pos hc, foldl_add_volume]
      rw [hstep, ih, specDetails_cons_pos day p rest hc]
      simp only [List.map_cons, List.sum_cons, List.countP_cons, hA, if_pos,
        Prod.mk.injEq]
      refine ⟨by ring, by omega, by simp⟩
    · have hA : hasCompletedSet p = false :=
        Bool.eq_false_iff.mpr (fun h1 => hc ((hasCompletedSet_iff p).mp h1))
      have hstep : finishStep day (a, n, d) p = (a, n, d) := by
        unfold finishStep
        rw [if_neg hc]
      have hv : completedVolume p.2 = 0 := by
        unfold completedVolume
        have hnil : p.2.filter (fun s => s.completed) = [] :=
          List.length_eq_zero.mp (by omega)
        rw [hnil]
        simp
      rw [hstep, ih, specDetails_cons_neg day p rest hc]
      simp [hA, hv]

theorem mem_specDetails {day : WorkoutDay} {entries : List (String × List SetLog)}
    {dtl : WorkoutLogDetail} (h : dtl ∈ specDetails day entries) :
    ∃ p ∈ entries, 0 < (p.2.filter (fun s => s.completed)).length ∧
      dtl.sets = (p.2.filter (fun s => s.completed)).map toLogSet := by
  unfold specDetails at h
  rcases List.mem_filterMap.mp h with ⟨p, hp, hfp⟩
  by_cases hc : 0 < (p.2.filter (fun s => s.completed)).length
  · refine ⟨p, hp, hc, ?_⟩
    simp only [hc, if_pos] at hfp
    rw [← Option.some_inj.mp hfp]
  · simp only [hc, if_neg, if_false] at hfp
    exact absurd hfp (by simp [hc])

theorem length_specDetails (day : WorkoutDay) (entries : List (String × List SetLog)) :
    (specDetails day entries).length = entries.countP hasCompletedSet := by
  induction entries with
  | nil => simp [specDetails]
  | cons p rest ih =>
    by_cases hc : 0 < (p.2.filter (fun s => s.completed)).length
    · have hA : hasCompletedSet p = true := (hasCompletedSet_iff p).mpr hc
      rw [specDetails_cons_pos day p rest hc]
      simp [List.countP_cons, hA, ih]
    · have hA : hasCompletedSet p = false :=
        Bool.eq_false_iff.mpr (fun h1 => hc ((hasCompletedSet_iff p).mp h1))
      rw [specDetails_cons_neg day p rest hc]
      simp [List.countP_cons, hA, ih]

/-- Claim C1: the finalized record's `totalVolume` is the sum of
weight times reps over exactly the sets completed at finalize time, and
no uncompleted set appears in the detailed exercise log. -/
theorem finish_totalVolume_spec (session : ActiveSession) (day : WorkoutDay)
    (planName : String) (now : Int) (recordId : String) :
    (finish session day planName now recordId).totalVolume
        = sessionCompletedVolume session ∧
    ∀ dtl ∈ (finish session day planName now recordId).exercises,
      ∀ s ∈ dtl.sets, s.completed = true := by
  constructor
  · unfold finish sessionCompletedVolume
    rw [finish_foldl_eq]
    simp
  · intro dtl hd s hs
    unfold finish at hd
    rw [finish_foldl_eq] at hd
    simp only [List.nil_append] at hd
    rcases mem_specDetails hd with ⟨p, _, _, hsets⟩
    rw [hsets] at hs
    rcases List.mem_map.mp hs with ⟨s0, hs0, hts⟩
    rw [← hts]
    simpa [toLogSet] using List.of_mem_filter hs0

/-- Closed witness for C1 at a concrete session and day. -/
theorem finish_totalVolume_spec_witness :
    (finish demoSession demoDay ("Push Pull Legs") 125000 ("rec-1")).totalVolume
        = sessionCompletedVolume demoSession ∧
    ({ weight := 100, reps := 5, completed := true } : LogSet).completed = true :=
  ⟨(finish_totalVolume_spec demoSession demoDay ("Push Pull Legs") 125000 ("rec-1")).1,
   (finish_totalVolume_spec demoSession demoDay ("Push Pull Legs") 125000 ("rec-1")).2
     demoDetail (by decide) { weight := 100, reps := 5, completed := true } (by decide)⟩

/-- Claim C5: an exercise slot with no completed set yields no detail
entry and does not increment `exercisesCompleted`; the counter and the
detail-entry count both equal the number of slots with at least one
completed set. -/
theorem finish_exercisesCompleted_spec (session : ActiveSession) (day : WorkoutDay)
    (planName : String) (now : Int) (recordId : String) :
    (finish session day planName now recordId).exercisesCompleted
        = session.exercises.countP hasCompletedSet ∧
    (finish session day planName now recordId).exercises.length
        = session.exercises.countP hasCompletedSet := by
  constructor
  · unfold finish
    rw [finish_foldl_eq]
    simp
  · unfold finish
    rw [finish_foldl_eq]
    simp [length_specDetails]

/-- Closed witness for C5 at a concrete session and day. -/
theorem finish_exercisesCompleted_spec_witness :
    (finish demoSession demoDay ("Push Pull Legs") 125000 ("rec-2")).exercisesCompleted
        = demoSession.exercises.countP hasCompletedSet ∧
    (finish demoSession demoDay ("Push Pull Legs") 125000 ("rec-2")).exercises.length
        = demoSession.exercises.countP hasCompletedSet :=
  finish_exercisesCompleted_spec demoSession demoDay ("Push Pull Legs") 125000 ("rec-2")

/-- Claim C10: every detail entry of a finalized record has a non-empty
set list all of whose sets are completed; consequently the analytics
completed-filter keeps every set and the initializer's scan for a last
completed set always succeeds on such an entry (its uncompleted-last-set
fallback never fires). -/
theorem finish_details_invariant (session : ActiveSession) (day : WorkoutDay)
    (planName : String) (now : Int) (recordId : String) :
    ∀ dtl ∈ (finish session day planName now recordId).exercises,
      dtl.sets ≠ [] ∧
      dtl.sets.filter (fun s => s.completed) = dtl.sets ∧
      (dtl.sets.reverse.find? (fun s => s.completed)).isSome = true := by
  intro dtl hd
  unfold finish at hd
  rw [finish_foldl_eq] at hd
  simp only [List.nil_append] at hd
  rcases mem_specDetails hd with ⟨p, _, hc, hsets⟩
  have hall : ∀ s ∈ dtl.sets, s.completed = true := by
    intro s hs
    rw [hsets] at hs
    rcases List.mem_map.mp hs with ⟨s0, hs0, hts⟩
    rw [← hts]
    simpa [toLogSet] using List.of_mem_filter hs0
  have hne : dtl.sets ≠ [] := by
    rw [hsets]
    intro hnil
    have := congrArg List.length hnil
    simp only [List.length_map, List.length_nil] at this
    omega
  refine ⟨hne, List.filter_eq_self.mpr hall, ?_⟩
  rcases List.exists_mem_of_ne_nil dtl.sets hne with ⟨x, hx⟩
  exact List.find?_isSome.mpr ⟨x, List.mem_reverse.mpr hx, hall x hx⟩

/-- Closed witness for C10 at a concrete session and day. -/
theorem finish_details_invariant_witness :
    demoDetail.sets ≠ [] ∧
    demoDetail.sets.filter (fun s => s.completed) = demoDetail.sets ∧
    (demoDetail.sets.reverse.find? (fun s => s.completed)).isSome = true :=
  finish_details_invariant demoSession demoDay ("Push Pull Legs") 125000 ("rec-3")
    demoDetail (by decide)

theorem foldl_setEntry_fresh {α : Type} (g : Exercise → α) (exs : List Exercise) :
    ∀ (acc : List (String × α)),
      (∀ ex ∈ exs, ∀ p ∈ acc, ¬ p.1 = ex.id) →
      (exs.map (fun e => e.id)).Nodup →
      exs.foldl (fun m ex => setEntry m ex.id (g ex)) acc
        = acc ++ exs.map (fun ex => (ex.id, g ex)) := by
  induction exs with
  | nil =>
    intro acc _ _
    simp
  | cons ex rest ih =>
    intro acc hdisj hnd
    have hnd2 : ex.id ∉ rest.map (fun e => e.id) ∧ (rest.map (fun e => e.id)).Nodup := by
      rw [List.map_cons] at hnd
      exact List.nodup_cons.mp hnd
    rw [List.foldl_cons]
    have hany : acc.any (fun p => p.1 == ex.id) = false := by
      rw [List.any_eq_false]
      intro p hp
      simpa using hdisj ex (by simp) p hp
    have hset : setEntry acc ex.id (g ex) = acc ++ [(ex.id, g ex)] := by
      unfold setEntry
      rw [hany]
      simp
    rw [hset, ih (acc ++ [(ex.id, g ex)]) ?hd ?hn]
    · simp
    case hd =>
      intro e he p hp
      rcases List.mem_append.mp hp with h1 | h1
      · exact hdisj e (by simp [he]) p h1
      · have hpe : p = (ex.id, g ex) := by simpa using h1
        subst hpe
        intro hEq
        exact hnd2.1 (List.mem_map.mpr ⟨e, he, hEq.symm⟩)
    case hn => exact hnd2.2

/-- Claim C2: initialization produces, for each exercise of the day in
order, exactly `targetSets` sets with reps 0 and completed `false`, each
carrying `findLastWeightForExercise` of the exercise's name; and
wherever the claim's own characterization of the carried weight
(`specCarryWeight`) fixes a value, the code computes that value.
Duplicate exercise ids within a day would make later JavaScript object
assignments overwrite earlier ones, so the day is assumed to have
pairwise distinct exercise ids. -/
theorem initSession_spec (day : WorkoutDay) (history : List WorkoutHistory)
    (ids : String → Nat → String)
    (hnd : (day.exercises.map (fun e => e.id)).Nodup) :
    List.Forall₂
      (fun ex p => p.1 = ex.id ∧ p.2.length = ex.targetSets ∧
        ∀ s ∈ p.2, s.reps = 0 ∧ s.completed = false ∧
          s.weight = findLastWeightForExercise ex.name history)
      day.exercises (initSession day history ids) ∧
    (∀ name w, specCarryWeight name history = some w →
      findLastWeightForExercise name history = w) := by
  constructor
  · unfold initSession
    rw [foldl_setEntry_fresh _ day.exercises [] (by simp) hnd]
    rw [List.nil_append, List.forall₂_map_right_iff]
    rw [List.forall₂_same]
    intro ex _
    refine ⟨rfl, by simp, ?_⟩
    intro s hs
    rcases List.mem_map.mp hs with ⟨i, _, hsi⟩
    rw [← hsi]
    exact ⟨rfl, rfl, rfl⟩
  · intro name w hspec
    induction history with
    | nil =>
      unfold specCarryWeight at hspec
      simp only [List.find?_nil, Option.some_inj] at hspec
      unfold findLastWeightForExercise
      exact hspec
    | cons r rest ih =>
      rcases hmatch : r.exercises.find? (fun e => e.name == name) with _ | entry
      · have hpred : ((fun rec => (rec.exercises.find? (fun e => e.name == name)).isSome) r) = false := by
          simp [hmatch]
        have hsc : specCarryWeight name (r :: rest) = specCarryWeight name rest := by
          unfold specCarryWeight
          rw [List.find?_cons_of_neg (p := fun rec : WorkoutHistory =>
            (rec.exercises.find? (fun e => e.name == name)).isSome) _ (by simp [hmatch])]
        have hfl : findLastWeightForExercise name (r :: rest)
            = findLastWeightForExercise name rest := by
          rw [show findLastWeightForExercise name (r :: rest)
              = (match r.exercises.find? (fun e => e.name == name) with
                 | some exerciseLog =>
                   if 0 < exerciseLog.sets.length then
                     match exerciseLog.sets.reverse.find? (fun s => s.completed) with
                     | some lastCompletedSet => lastCompletedSet.weight
                     | none => lastSetWeight exerciseLog.sets
                   else findLastWeightForExercise name rest
                 | none => findLastWeightForExercise name rest) from rfl]
          rw [hmatch]
        rw [hfl]
        exact ih (hsc ▸ hspec)
      · have hfound : (r :: rest).find? (fun rec =>
            (rec.exercises.find? (fun e => e.name == name)).isSome) = some r :=
          List.find?_cons_of_pos _ (by simp [hmatch])
        have hspec2 : (match entry.sets.reverse.find? (fun s => s.completed) with
            | some s => some s.weight
            | none => (entry.sets.getLast?).map (fun s => s.weight)) = some w := by
          unfold specCarryWeight at hspec
          rw [hfound] at hspec
          simpa [hmatch] using hspec
        rw [show findLastWeightForExercise name (r :: rest)
            = (match r.exercises.find? (fun e => e.name == name) with
               | some exerciseLog =>
                 if 0 < exerciseLog.sets.length then
                   match exerciseLog.sets.reverse.find? (fun s => s.completed) with
                   | some lastCompletedSet => lastCompletedSet.weight
                   | none => lastSetWeight exerciseLog.sets
                 else findLastWeightForExercise name rest
               | none => findLastWeightForExercise name rest) from rfl]
        simp only [hmatch]
        rcases hrev : entry.sets.reverse.find? (fun s => s.completed) with _ | s
        · simp only [hrev] at hspec2
          rcases hlast : entry.sets.getLast? with _ | lastSet
          · simp only [hlast] at hspec2
            simp at hspec2
          · rw [hlast] at hspec2
            simp only [Option.map_some', Option.some_inj] at hspec2
            have hne : entry.sets ≠ [] := by
              intro hnil
              rw [hnil] at hlast
              simp at hlast
            have hlen : 0 < entry.sets.length := List.length_pos.mpr hne
            rw [if_pos hlen, hrev]
            unfold lastSetWeight
            rw [hlast]
            exact hspec2
        · simp only [hrev, Option.some_inj] at hspec2
          have hmem : s ∈ entry.sets.reverse := List.mem_of_find?_eq_some hrev
          have hne : entry.sets ≠ [] := by
            intro hnil
            rw [hnil] at hmem
            simp at hmem
          rw [if_pos (List.length_pos.mpr hne), hrev]
          exact hspec2

/-- Closed witness for C2: the specification's own carry-forward example
(history sets 100/105/90 with the 90 kg set uncompleted) initialized for
a Bench Press day with distinct exercise ids. -/
theorem initSession_spec_witness :
    List.Forall₂
      (fun ex p => p.1 = ex.id ∧ p.2.length = ex.targetSets ∧
        ∀ s ∈ p.2, s.reps = 0 ∧ s.completed = false ∧
          s.weight = findLastWeightForExercise ex.name demoHistory)
      demoDay.exercises (initSession demoDay demoHistory demoIds) ∧
    findLastWeightForExercise ("Bench Press") demoHistory = 105 :=
  ⟨(initSession_spec demoDay demoHistory demoIds (by decide)).1,
   (initSession_spec demoDay demoHistory demoIds (by decide)).2
     ("Bench Press") 105 (by decide)⟩

theorem statStep_volume (sets : List LogSet) :
    ∀ (a b c : Rat),
      (sets.foldl statStep (a, b, c)).2.1
        = b + ((sets.filter (fun s => s.completed)).map (fun s => s.weight * s.reps)).sum := by
  induction sets with
  | nil =>
    intro a b c
    simp
  | cons s rest ih =>
    intro a b c
    rw [List.foldl_cons]
    by_cases hsc : s.completed = true
    · have hstep : statStep (a, b, c) s
          = (if a < s.weight then s.weight else a,
             b + s.weight * s.reps,
             if c < estOneRepMax s.weight s.reps then estOneRepMax s.weight s.reps else c) := by
        unfold statStep
        rw [if_pos hsc]
      rw [hstep, ih, List.filter_cons_of_pos hsc]
      simp [add_assoc]
    · have hstep : statStep (a, b, c) s = (a, b, c) := by
        unfold statStep
        rw [if_neg hsc]
      rw [hstep, ih, List.filter_cons_of_neg hsc]

theorem length_filterMap_eq_countP {α β : Type} (f : α → Option β) (l : List α) :
    (l.filterMap f).length = l.countP (fun a => (f a).isSome) := by
  induction l with
  | nil => simp
  | cons a rest ih =>
    rw [List.filterMap_cons]
    cases hfa : f a with
    | none => simp [List.countP_cons, hfa, ih]
    | some b => simp [List.countP_cons, hfa, ih]

theorem recordStat_isSome (name : String) (h : WorkoutHistory) :
    (recordStat name h).isSome = decide (0 < recordVolume name h) := by
  unfold recordStat recordVolume
  cases hf : h.exercises.find? (fun e => e.name == name) with
  | none => simp
  | some exData =>
    simp only [statStep_volume, zero_add]
    by_cases hp : 0 < ((exData.sets.filter (fun s => s.completed)).map
        (fun s => s.weight * s.reps)).sum
    · simp [hp]
    · simp [hp]

/-- Claim C7: the progression series is sorted ascending by date
whatever the store order; every point of the series has positive volume
(so records contributing zero volume — in particular records with no
completed set for the exercise — are excluded); and for a non-empty
exercise name the series holds exactly one point per record whose
matching entry has positive completed volume. -/
theorem exerciseStats_spec (history : List WorkoutHistory) (name : String) :
    (exerciseStats history name).Pairwise (fun a b => a.date ≤ b.date) ∧
    (∀ p ∈ exerciseStats history name, 0 < p.volume) ∧
    (name ≠ "" → (exerciseStats history name).length
        = history.countP (fun h => decide (0 < recordVolume name h))) := by
  refine ⟨?_, ?_, ?_⟩
  · unfold exerciseStats
    by_cases hn : name == ""
    · rw [if_pos hn]
      simp
    · rw [if_neg hn]
      have hs := @List.sorted_mergeSort StatPoint
        (fun a b => decide (a.date ≤ b.date))
        (fun a b c hab hbc => by
          simp only [decide_eq_true_eq] at hab hbc ⊢
          omega)
        (fun a b => by
          rcases Int.le_total a.date b.date with h1 | h1 <;> simp [h1])
        (history.filterMap (recordStat name))
      exact hs.imp (fun hab => by simpa using hab)
  · intro p hp
    unfold exerciseStats at hp
    by_cases hn : name == ""
    · rw [if_pos hn] at hp
      simp at hp
    · rw [if_neg hn] at hp
      have hp2 := (List.mergeSort_perm (history.filterMap (recordStat name))
        (fun a b => decide (a.date ≤ b.date))).mem_iff.mp hp
      rcases List.mem_filterMap.mp hp2 with ⟨h, _, hrs⟩
      unfold recordStat at hrs
      rcases hf : h.exercises.find? (fun e => e.name == name) with _ | exData
      · rw [hf] at hrs
        simp at hrs
      · rw [hf] at hrs
        by_cases hv : 0 < (exData.sets.foldl statStep (0, 0, 0)).2.1
        · simp only [hv, if_pos] at hrs
          have := Option.some_inj.mp hrs
          rw [← this]
          exact hv
        · simp only [hv] at hrs
          simp at hrs
  · intro hn
    unfold exerciseStats
    rw [if_neg (by simpa using hn)]
    rw [(List.mergeSort_perm (history.filterMap (recordStat name))
      (fun a b => decide (a.date ≤ b.date))).length_eq]
    rw [length_filterMap_eq_countP]
    exact List.countP_congr (fun h _ => by rw [recordStat_isSome])

/-- Closed witness for C7 on the demonstration history. -/
theorem exerciseStats_spec_witness :
    (exerciseStats demoHistory ("Bench Press")).Pairwise (fun a b => a.date ≤ b.date) ∧
    (0 : Rat) < demoPoint.volume ∧
    (exerciseStats demoHistory ("Bench Press")).length
        = demoHistory.countP (fun h => decide (0 < recordVolume ("Bench Press") h)) :=
  ⟨(exerciseStats_spec demoHistory ("Bench Press")).1,
   (exerciseStats_spec demoHistory ("Bench Press")).2.1 demoPoint (by
     have hser : exerciseStats demoHistory ("Bench Press") = [demoPoint] := by
       unfold exerciseStats
       rw [if_neg (by decide)]
       rw [show demoHistory.filterMap (recordStat ("Bench Press")) = [demoPoint] from by
         norm_num [demoHistory, demoLogEntry, recordStat, demoPoint, statStep,
           estOneRepMax, List.filterMap_cons]]
       exact List.mergeSort_singleton demoPoint
     rw [hser]
     exact List.mem_singleton.mpr rfl),
   (exerciseStats_spec demoHistory ("Bench Press")).2.2 (by decide)⟩

/-- Counterexample to claim C9 as stated: at weight 0 the Epley estimate
is constantly 0, so it is not strictly increasing in reps for every
fixed weight. -/
theorem estOneRepMax_not_reps_strict_counterexample :
    ¬ ∀ (w r₁ r₂ : Rat), r₁ < r₂ → estOneRepMax w r₁ < estOneRepMax w r₂ := by
  intro hmono
  have h0 := hmono 0 1 2 (by norm_num)
  norm_num [estOneRepMax] at h0

/-- Claim C9 as amended: for a fixed positive weight the Epley estimate
`weight * (1 + reps / 30)` is strictly increasing in reps, and for a
fixed non-negative rep count it is strictly increasing in weight.  (At
weight 0 the estimate is constantly 0, so strictness in reps needs a
positive weight; weights and reps are non-negative in the data model.) -/
theorem estOneRepMax_mono (w r w₁ w₂ r₁ r₂ : Rat) (hw : 0 < w) (hr : 0 ≤ r) :
    (r₁ < r₂ → estOneRepMax w r₁ < estOneRepMax w r₂) ∧
    (w₁ < w₂ → estOneRepMax w₁ r < estOneRepMax w₂ r) := by
  constructor
  · intro hlt
    unfold estOneRepMax
    have h1 : 1 + r₁ / 30 < 1 + r₂ / 30 := by linarith
    exact mul_lt_mul_of_pos_left h1 hw
  · intro hlt
    unfold estOneRepMax
    have h2 : 0 < 1 + r / 30 := by linarith
    exact mul_lt_mul_of_pos_right hlt h2

/-- Closed witness for the amended C9 at concrete weights and reps. -/
theorem estOneRepMax_mono_witness :
    estOneRepMax 100 1 < estOneRepMax 100 2 ∧ estOneRepMax 100 8 < estOneRepMax 105 8 :=
  ⟨(estOneRepMax_mono 100 8 100 105 1 2 (by norm_num) (by norm_num)).1 (by norm_num),
   (estOneRepMax_mono 100 8 100 105 1 2 (by norm_num) (by norm_num)).2 (by norm_num)⟩

theorem set_map_range {β : Type} (f : Nat → β) (n k : Nat) (x : β) :
    ((List.range n).map f).set k x
      = (List.range n).map (fun i => if i = k then x else f i) := by
  apply List.ext_getElem
  · simp
  · intro m h1 h2
    simp only [List.length_set, List.length_map, List.length_range] at h1
    rw [List.getElem_set]
    simp only [List.getElem_map, List.getElem_range]
    by_cases hm : k = m
    · subst hm
      simp
    · rw [if_neg hm, if_neg (fun hh => hm hh.symm)]

theorem foldlM_bucketStep (now : Int) :
    ∀ (history : List WorkoutHistory) (w : Nat → Nat) (v : Nat → Rat),
      (∀ h ∈ history, 0 ≤ weekIndexOf now h) →
      history.foldlM (bucketStep now)
          ((List.range 4).map (fun i =>
            { label := weekLabel i, workouts := w i, volume := v i : WeekBucket }))
        = some ((List.range 4).map (fun i =>
            { label := weekLabel i,
              workouts := w i + history.countP (fun h => weekIndexOf now h == (i : Int)),
              volume := v i + ((history.filter
                (fun h => weekIndexOf now h == (i : Int))).map
                  (fun h => h.totalVolume)).sum : WeekBucket })) := by
  intro history
  induction history with
  | nil =>
    intro w v _
    simp
  | cons h rest ih =>
    intro w v hpast
    have hj : 0 ≤ weekIndexOf now h := hpast h (by simp)
    rw [List.foldlM_cons]
    by_cases hlt : weekIndexOf now h < 4
    · have hjn : (weekIndexOf now h).toNat < 4 := by omega
      have hcast : ((weekIndexOf now h).toNat : Int) = weekIndexOf now h :=
        Int.toNat_of_nonneg hj
      have hget : (((List.range 4).map (fun i =>
          { label := weekLabel i, workouts := w i, volume := v i : WeekBucket })))[(weekIndexOf now h).toNat]?
          = some { label := weekLabel (weekIndexOf now h).toNat,
                   workouts := w (weekIndexOf now h).toNat,
                   volume := v (weekIndexOf now h).toNat } := by
        rw [List.getElem?_map, List.getElem?_range hjn]
        rfl
      have hstep : bucketStep now ((List.range 4).map (fun i =>
          { label := weekLabel i, workouts := w i, volume := v i : WeekBucket })) h
          = some ((List.range 4).map (fun i =>
              { label := weekLabel i,
                workouts := (if i = (weekIndexOf now h).toNat then w i + 1 else w i),
                volume := (if i = (weekIndexOf now h).toNat then v i + h.totalVolume
                           else v i) : WeekBucket })) := by
        unfold bucketStep
        rw [if_pos hlt, if_pos hj]
        simp only [hget]
        rw [set_map_range]
        refine congrArg some (List.map_congr_left ?_)
        intro i _
        by_cases hij : i = (weekIndexOf now h).toNat
        · subst hij
          simp
        · simp [hij]
      rw [hstep]
      simp only [Option.pure_def, Option.bind_eq_bind, Option.some_bind]
      rw [ih _ _ (fun x hx => hpast x (by simp [hx]))]
      refine congrArg some (List.map_congr_left ?_)
      intro i hi
      have hi4 : i < 4 := List.mem_range.mp hi
      by_cases hij : i = (weekIndexOf now h).toNat
      · have hpi : (weekIndexOf now h == (i : Int)) = true := by
          rw [beq_iff_eq, hij]
          exact hcast.symm
        rw [List.countP_cons, List.filter_cons_of_pos
          (p := fun x : WorkoutHistory => weekIndexOf now x == (i : Int)) hpi]
        rw [if_pos hij, if_pos hij]
        simp only [hpi, List.map_cons, List.sum_cons, WeekBucket.mk.injEq, if_true,
          eq_self_iff_true]
        refine ⟨by simp, by omega, by ring⟩
      · have hpi : (weekIndexOf now h == (i : Int)) = false := by
          rw [beq_eq_false_iff_ne]
          intro hEq
          apply hij
          omega
        rw [List.countP_cons, List.filter_cons_of_neg
          (p := fun x : WorkoutHistory => weekIndexOf now x == (i : Int)) (by simp [hpi])]
        simp [hpi, hij]
    · have hstep : bucketStep now ((List.range 4).map (fun i =>
          { label := weekLabel i, workouts := w i, volume := v i : WeekBucket })) h
          = some ((List.range 4).map (fun i =>
              { label := weekLabel i, workouts := w i, volume := v i : WeekBucket })) := by
        unfold bucketStep
        rw [if_neg hlt]
      rw [hstep]
      simp only [Option.pure_def, Option.bind_eq_bind, Option.some_bind]
      rw [ih _ _ (fun x hx => hpast x (by simp [hx]))]
      refine congrArg some (List.map_congr_left ?_)
      intro i hi
      have hi4 : i < 4 := List.mem_range.mp hi
      have hpi : (weekIndexOf now h == (i : Int)) = false := by
        rw [beq_eq_false_iff_ne]
        intro hEq
        omega
      rw [List.countP_cons, List.filter_cons_of_neg
        (p := fun x : WorkoutHistory => weekIndexOf now x == (i : Int)) (by simp [hpi])]
      simp [hpi]

/-- Claim C6: for past-dated records, `weeklyActivity` equals the
specification buckets — each record is assigned bucket index
`floor(floor((now - date) / 1 day) / 7)`, records with index at least 4
are excluded, each included record counts once and adds its
`totalVolume` to its bucket, and the output is oldest-first (bucket 3
down to bucket 0); moreover a record dated exactly seven days before
`now` falls in bucket 1, not bucket 0. -/
theorem weeklyActivity_spec (history : List WorkoutHistory) (now : Int)
    (hpast : ∀ h ∈ history, h.date ≤ now) :
    weeklyActivity history now = some (specWeekBuckets history now) ∧
    ∀ h : WorkoutHistory, h.date = now - 7 * msPerDay → weekIndexOf now h = 1 := by
  constructor
  · have hp2 : ∀ h ∈ history, 0 ≤ weekIndexOf now h := by
      intro h hh
      have hd := hpast h hh
      unfold weekIndexOf
      have h1 : 0 ≤ now - h.date := by omega
      exact Int.fdiv_nonneg (Int.fdiv_nonneg h1 (by norm_num [msPerDay])) (by norm_num)
    have hfold := foldlM_bucketStep now history (fun _ => 0) (fun _ => 0) hp2
    simp only [zero_add] at hfold
    unfold weeklyActivity specWeekBuckets
    simp only [hfold, Option.map_some']
  · intro h hdate
    unfold weekIndexOf
    rw [hdate]
    have hsub : now - (now - 7 * msPerDay) = 7 * msPerDay := by ring
    rw [hsub, Int.mul_fdiv_cancel 7 (by norm_num [msPerDay])]
    decide

/-- Closed witness for C6 on the demonstration history. -/
theorem weeklyActivity_spec_witness :
    weeklyActivity demoHistory 100000 = some (specWeekBuckets demoHistory 100000) ∧
    weekIndexOf 100000 demoBoundaryRecord = 1 :=
  ⟨(weeklyActivity_spec demoHistory 100000 (by decide)).1,
   (weeklyActivity_spec demoHistory 100000 (by decide)).2 demoBoundaryRecord (by decide)⟩
